import Mathlib

/-!
Shallow embedding of `src/kh-summary/summary.py`, a bank-transaction
charting script: header sanitation (`fix_header_line`), CSV loading and
validation (`read_and_process_csv`), chronology normalisation, balance
accumulation, and the `main` entry point.  Missing CSV cells (pandas
`NaN`) are modelled as `Option.none`; amounts are modelled as exact
integers, which is faithful for the prefix-sum properties at stake.
-/

namespace KhSummary

/-- Python's `str.isspace` on a single character: the Unicode whitespace
code points recognised by CPython. -/
def pyIsSpace (c : Char) : Bool :=
  let n := c.toNat
  (0x09 ≤ n && n ≤ 0x0D) || n == 0x20 || (0x1C ≤ n && n ≤ 0x1F) || n == 0x85 ||
  n == 0xA0 || n == 0x1680 || (0x2000 ≤ n && n ≤ 0x200A) || n == 0x2028 ||
  n == 0x2029 || n == 0x202F || n == 0x205F || n == 0x3000

/-- The header repair applied to the first line by `fix_header_line`
(line 29 of the source): keep a character when it is a tab or not
whitespace, drop every other (whitespace, non-tab) character. -/
def fixHeader (line : String) : String :=
  String.mk (line.data.filter (fun c => c == '\t' || !pyIsSpace c))

/-- Output path of `fix_header_line` (line 34): the input path with the
suffix tag appended. -/
def fixedPath (p : String) : String := p ++ "_fixed.csv"

/-- The whole of `fix_header_line`: the input file is given as the list
of its lines exactly as Python's `readlines` yields them (line
terminators included).  On an empty file `lines[0]` raises `IndexError`
(modelled as `none`) before anything is written; otherwise the first
line is repaired, the rest are untouched, and the result is written to
the suffix-tagged path. -/
def fixHeaderLineRun (path : String) (lines : List String) :
    Option (String × List String) :=
  match lines with
  | [] => none
  | h :: t => some (fixedPath path, fixHeader h :: t)

/-- One parsed row of the export, restricted to the six columns the
script reads.  `none` models a pandas `NaN` cell (an empty CSV field). -/
structure RawRow where
  konyvelesdatuma : Option String
  osszeg : Option Int
  osszegdevizaneme : Option String
  tipus : Option String
  partnerelnevezese : Option String
  kozlemeny : Option String
deriving Repr, DecidableEq, Inhabited

/-- A row is completely empty (pandas `dropna(how='all')` drops it) when
every modelled cell is missing. -/
def RawRow.allNa (r : RawRow) : Bool :=
  r.konyvelesdatuma.isNone && r.osszeg.isNone && r.osszegdevizaneme.isNone &&
  r.tipus.isNone && r.partnerelnevezese.isNone && r.kozlemeny.isNone

/-- The transaction type excluded at line 63 of the source as an
account-merge artifact. -/
def EXCLUDED_TYPE : String := "Számlamegszüntetés átvezetéssel"

/-- Leap year in the Gregorian calendar. -/
def isLeap (y : Nat) : Bool := y % 4 == 0 && (y % 100 != 0 || y % 400 == 0)

/-- Number of days of month `m` of year `y`. -/
def daysInMonth (y m : Nat) : Nat :=
  if m == 2 then (if isLeap y then 29 else 28)
  else if m == 4 || m == 6 || m == 9 || m == 11 then 30
  else 31

/-- Split of a character list at every dot, the separator of the
`%Y.%m.%d` pattern. -/
def splitDot : List Char → List (List Char)
  | [] => [[]]
  | c :: rest =>
    if c = '.' then [] :: splitDot rest
    else
      match splitDot rest with
      | g :: gs => (c :: g) :: gs
      | [] => [[c]]

/-- Decimal digit test on a character. -/
def isDigitChar (c : Char) : Bool := 48 ≤ c.toNat && c.toNat ≤ 57

/-- Value of a list of decimal digits. -/
def digitsToNat (cs : List Char) : Nat :=
  cs.foldl (fun a c => 10 * a + (c.toNat - 48)) 0

/-- Parse of one `könyvelésdátuma` cell with `pd.to_datetime(...,
format='%Y.%m.%d')` (line 61): three dot-separated digit groups (at most
4/2/2 digits) forming a valid calendar date; anything else raises, which
the caller turns into a load failure. -/
def parseDate (s : String) : Option (Nat × Nat × Nat) :=
  match splitDot s.data with
  | [ys, ms, ds] =>
    if !ys.isEmpty && !ms.isEmpty && !ds.isEmpty &&
       ys.all isDigitChar && ms.all isDigitChar && ds.all isDigitChar then
      let y := digitsToNat ys
      let m := digitsToNat ms
      let d := digitsToNat ds
      if ys.length ≤ 4 && ms.length ≤ 2 && ds.length ≤ 2 &&
         1 ≤ m && m ≤ 12 && 1 ≤ d && d ≤ daysInMonth y m then
        some (y, m, d)
      else none
    else none
  | _ => none

/-- Day number of a calendar date (standard civil-from-days algorithm),
the linear timeline `datetime64` values are ordered and shifted on. -/
def dateOrdinal : Nat × Nat × Nat → Nat
  | (y, m, d) =>
    let y' := if m ≤ 2 then y - 1 else y
    let era := y' / 400
    let yoe := y' % 400
    let mp := if m ≤ 2 then m + 9 else m - 3
    let doy := (153 * mp + 2) / 5 + d - 1
    let doe := yoe * 365 + yoe / 4 - yoe / 100 + doy
    era * 146097 + doe

/-- Rows surviving `dropna(how='all')` (line 48). -/
def keptRows (rows : List RawRow) : List RawRow :=
  rows.filter (fun r => !r.allNa)

/-- The rows flagged by the currency gate (line 54): kept rows whose
`összegdevizaneme` differs from `'HUF'` (a missing cell also differs,
exactly as `NaN != 'HUF'` is true in pandas). -/
def nonHufRows (rows : List RawRow) : List RawRow :=
  (keptRows rows).filter (fun r => !(r.osszegdevizaneme == some "HUF"))

/-- Date parsing of every kept row (line 61).  `pd.to_datetime` maps a
missing cell (NaN) to `NaT` without raising — modelled as a `none`
ordinal — while a present but malformed date string raises, which the
caller turns into a load failure.  On success each row is paired with
its optional date ordinal. -/
def parseDates : List RawRow → Option (List (RawRow × Option Nat))
  | [] => some []
  | r :: rest =>
    match r.konyvelesdatuma with
    | none =>
      match parseDates rest with
      | none => none
      | some tail => some ((r, none) :: tail)
    | some s =>
      match parseDate s with
      | none => none
      | some p =>
        match parseDates rest with
        | none => none
        | some tail => some ((r, some (dateOrdinal p)) :: tail)

/-- Order on optional date ordinals used by `sort_values('date')`:
`NaT` (`none`) sorts after every real date (pandas' default
`na_position='last'`). -/
def naLastLe (a b : Option Nat) : Prop :=
  match a, b with
  | none, some _ => False
  | some x, some y => x ≤ y
  | _, _ => True

instance : DecidableRel naLastLe := fun a b =>
  match a, b with
  | none, none => isTrue True.intro
  | none, some _ => isFalse (fun h => h)
  | some _, none => isTrue True.intro
  | some x, some y => Nat.decLe x y

/-- Sort of the rows by posting date (line 65), `NaT` rows last.  The
embedding realises `sort_values('date')` as an insertion sort on the
date ordinal, one date-ordered permutation of the rows; pandas' default
sort kind fixes some such permutation. -/
def sortByDate (l : List (RawRow × Option Nat)) : List (RawRow × Option Nat) :=
  List.insertionSort (fun a b => naLastLe a.2 b.2) l

/-- Offsets of the groupby-transform at lines 70-72: each position with
a present date receives the number of earlier positions carrying the
same date ordinal (`range(len(group))` within its calendar-date group,
in row order); `NaT` rows belong to no group (`groupby` drops missing
keys) and keep a missing offset.  `seen` accumulates the present
ordinals already passed. -/
def offsetsGo (seen : List Nat) : List (Option Nat) → List (Option Nat)
  | [] => []
  | none :: rest => none :: offsetsGo seen rest
  | some o :: rest => some (seen.count o) :: offsetsGo (o :: seen) rest

/-- Hour offsets for a list of optional date ordinals in row order. -/
def offsets (ords : List (Option Nat)) : List (Option Nat) := offsetsGo [] ords

/-- Nat-level offsets, the all-dates-present special case. -/
def offsetsGoNat (seen : List Nat) : List Nat → List Nat
  | [] => []
  | o :: rest => seen.count o :: offsetsGoNat (o :: seen) rest

/-- Synthetic timestamp of one row: date ordinal in hours plus its hour
offset; missing (`NaT`) when the date or offset is missing. -/
def tsOf (o k : Option Nat) : Option Nat :=
  match o, k with
  | some o', some k' => some (o' * 24 + k')
  | _, _ => none

/-- Skip-NA cumulative sum of `Series.cumsum()` (line 74): a missing
amount yields a missing sum and is ignored by later positions. -/
def cumsumOptGo (acc : Int) : List (Option Int) → List (Option Int)
  | [] => []
  | none :: rest => none :: cumsumOptGo acc rest
  | some a :: rest => some (acc + a) :: cumsumOptGo (acc + a) rest

/-- Cumulative sum of a column of optional amounts. -/
def cumsumOpt (l : List (Option Int)) : List (Option Int) := cumsumOptGo 0 l

/-- Plain integer prefix sums, the all-amounts-present special case. -/
def cumsumIntGo (acc : Int) : List Int → List Int
  | [] => []
  | a :: rest => (acc + a) :: cumsumIntGo (acc + a) rest

/-- Prefix sums of a list of integers. -/
def cumsumInt (l : List Int) : List Int := cumsumIntGo 0 l

/-- Three-tier fallback of lines 75-77:
`partnerelnevezése.fillna(közlemény.fillna('No Description'))`. -/
def descriptionOf (r : RawRow) : String :=
  r.partnerelnevezese.getD (r.kozlemeny.getD "No Description")

/-- The processed table, column-wise like the pandas frame: the rows in
sorted order together with the derived `date` (ordinal and hour offset,
combined into an hour-resolution timestamp), `balance` and
`description` columns. -/
structure ProcFrame where
  rows : List RawRow
  ordinals : List (Option Nat)
  offs : List (Option Nat)
  ts : List (Option Nat)
  balances : List (Option Int)
  descriptions : List String
deriving Repr, DecidableEq, Inhabited

/-- Columns derived from the sorted, date-annotated rows
(lines 70-77). -/
def processFrame (l : List (RawRow × Option Nat)) : ProcFrame :=
  let ords := l.map (fun p => p.2)
  let ofs := offsets ords
  { rows := l.map (fun p => p.1)
    ordinals := ords
    offs := ofs
    ts := List.zipWith tsOf ords ofs
    balances := cumsumOpt (l.map (fun p => p.1.osszeg))
    descriptions := l.map (fun p => descriptionOf p.1) }

/-- Outcome of the row-level part of `read_and_process_csv`: either the
processed frame, or no data at all, together with the per-row currency
mismatch report printed at lines 57-58. -/
structure LoadResult where
  result : Option ProcFrame
  report : List (Option String × Option Int × Option String)
deriving Repr, DecidableEq

/-- Row-level pipeline of `read_and_process_csv` (lines 48-78): drop
all-empty rows, abort with a full report if any currency differs from
HUF, parse all posting dates (failure aborts), drop the artifact
transaction type, sort by date, and derive the timestamp, balance and
description columns. -/
def loadRows (rows : List RawRow) : LoadResult :=
  let kept := keptRows rows
  let nh := nonHufRows rows
  if nh.isEmpty then
    match parseDates kept with
    | none => { result := none, report := [] }
    | some withDates =>
      let filtered := withDates.filter (fun p => !(p.1.tipus == some EXCLUDED_TYPE))
      { result := some (processFrame (sortByDate filtered)), report := [] }
  else
    { result := none
      report := nh.map (fun r => (r.konyvelesdatuma, r.osszeg, r.osszegdevizaneme)) }

/-- Observable file-system and console effects of the load. `delete`
never occurs in the source; the constructor exists so that its absence
is expressible. -/
inductive FsEvent where
  | write (path : String) (lines : List String)
  | reportMismatch (date : Option String) (amount : Option Int) (currency : Option String)
  | delete (path : String)
deriving Repr, DecidableEq

/-- Whether an event is a file deletion. -/
def FsEvent.isDelete : FsEvent → Bool
  | .delete _ => true
  | _ => false

/-- Result of `read_and_process_csv` plus its effect trace in program
order. -/
structure CsvRun where
  events : List FsEvent
  result : Option ProcFrame
deriving Repr, DecidableEq

/-- File-level `read_and_process_csv` (lines 40-82).  `lines` is the
input file as read, `rows` stands for the table `pd.read_csv` parses
from the fixed copy (CSV parsing itself is not modelled).  On an empty
file `fix_header_line` raises `IndexError` inside the `try` block
before the fixed copy is written, so the trace is empty and the load
fails; otherwise the fixed copy is written first and the row pipeline
runs. -/
def readAndProcessCsv (path : String) (lines : List String) (rows : List RawRow) :
    CsvRun :=
  match fixHeaderLineRun path lines with
  | none => { events := [], result := none }
  | some (outPath, outLines) =>
    let lr := loadRows rows
    { events := FsEvent.write outPath outLines ::
        lr.report.map (fun x => FsEvent.reportMismatch x.1 x.2.1 x.2.2)
      result := lr.result }

/-- Observable outcome of `main` (lines 241-284). -/
structure MainTrace where
  exitCode : Nat
  loaderInvoked : Bool
  chartWritten : Bool
deriving Repr, DecidableEq

/-- Uncaught-exception condition of the summary and chart stage after a
successful load: with an empty frame `df['date'].min()` is `NaT` and
line 253's `strftime` raises (line 254's `iloc[-1]` likewise); with any
`NaT` timestamp line 93's per-row `strftime` raises; with every balance
missing the peak-annotation selection `df[df['balance'] == max]` at
line 215 is empty and `iloc[0]` raises.  Each raise is uncaught, so the
interpreter exits with code 1 and no chart is written. -/
def mainCrashes (f : ProcFrame) : Bool :=
  f.rows.isEmpty || f.ordinals.any (fun o => o.isNone) ||
    f.balances.all (fun b => b.isNone)

/-- The `main` entry point: `argvLen` is `len(sys.argv)` (program name
plus positional arguments); anything but exactly one positional
argument exits with code 1 before any processing; a failed load exits
with code 1 before any chart is produced.  After a successful load
there is no try/except: an empty or unrenderable frame crashes in the
summary/chart stage (exit code 1, no chart); otherwise the chart is
written and the exit code is 0 — a browser-launch failure
(`browserOk = false`) is caught and does not change the exit code. -/
def runMain (argvLen : Nat) (path : String) (lines : List String)
    (rows : List RawRow) (browserOk : Bool) : MainTrace :=
  if argvLen ≠ 2 then
    { exitCode := 1, loaderInvoked := false, chartWritten := false }
  else
    match (readAndProcessCsv path lines rows).result with
    | none => { exitCode := 1, loaderInvoked := true, chartWritten := false }
    | some f =>
      if mainCrashes f then
        { exitCode := 1, loaderInvoked := true, chartWritten := false }
      else
        let _ := browserOk
        { exitCode := 0, loaderInvoked := true, chartWritten := true }

/-- Executable strict-increase check on a list of optional naturals: a
missing entry never participates in a strict increase. -/
def strictChainOptB : List (Option Nat) → Bool
  | [] => true
  | [_] => true
  | a :: b :: rest =>
    (match a, b with
     | some x, some y => decide (x < y)
     | _, _ => false) && strictChainOptB (b :: rest)

/-- Agreement of the two relations `fix_header_line` keeps characters
by: the source keeps tabs and non-whitespace, which is keeping exactly
the characters that are not whitespace-other-than-tab. -/
theorem fixHeader_filter_eq (line : String) :
    fixHeader line =
      String.mk (line.data.filter (fun c => !(pyIsSpace c && !(c == '\t')))) := by
  unfold fixHeader
  congr 1
  apply List.filter_congr
  intro c _
  cases h : (c == '\t') <;> cases h2 : pyIsSpace c <;> simp [h, h2]

/-- The executable strict-increase check agrees with `List.Chain'` over
the present-and-increasing relation on optional timestamps. -/
theorem chain'_iff_strictChainOptB (l : List (Option Nat)) :
    List.Chain' (fun a b : Option Nat => ∃ x y, a = some x ∧ b = some y ∧ x < y) l
      ↔ strictChainOptB l = true := by
  induction l with
  | nil => simp [strictChainOptB]
  | cons a rest ih =>
    cases rest with
    | nil => simp [strictChainOptB]
    | cons b rest' =>
      rw [List.chain'_cons]
      simp only [strictChainOptB, Bool.and_eq_true, ← ih]
      cases a <;> cases b <;> simp

theorem cumsumIntGo_length (acc : Int) (l : List Int) :
    (cumsumIntGo acc l).length = l.length := by
  induction l generalizing acc with
  | nil => rfl
  | cons a rest ih => simp [cumsumIntGo, ih]

theorem cumsumOptGo_map_some (acc : Int) (l : List Int) :
    cumsumOptGo acc (l.map some) = (cumsumIntGo acc l).map some := by
  induction l generalizing acc with
  | nil => rfl
  | cons a rest ih => simp [cumsumOptGo, cumsumIntGo, ih]

theorem cumsumIntGo_getD (acc : Int) (l : List Int) (i : Nat) (h : i < l.length) :
    (cumsumIntGo acc l).getD i 0 = acc + (l.take (i + 1)).sum := by
  induction l generalizing acc i with
  | nil => simp at h
  | cons a rest ih =>
    cases i with
    | zero => simp [cumsumIntGo]
    | succ j =>
      have hj : j < rest.length := by simpa using h
      simp only [cumsumIntGo, List.getD_cons_succ, List.take_succ_cons, List.sum_cons]
      rw [ih (acc + a) j hj]
      ring

/-- Within the row order, a position whose present date ordinal equals
the previous position's receives the previous offset plus one:
same-day rows get consecutive ascending hour offsets, with no bound on
the group size; pairs involving a missing date are unconstrained. -/
theorem offsetsGo_zip_chain (seen : List Nat) (l : List (Option Nat)) :
    List.Chain' (fun p q : Option Nat × Option Nat =>
      ∀ o, p.1 = some o → q.1 = some o →
        ∃ i, p.2 = some i ∧ q.2 = some (i + 1))
      (l.zip (offsetsGo seen l)) := by
  induction l generalizing seen with
  | nil => simp [offsetsGo]
  | cons a rest ih =>
    cases a with
    | none =>
      simp only [offsetsGo, List.zip_cons_cons]
      rw [List.chain'_cons']
      refine ⟨?_, ih seen⟩
      intro pq _ o ho
      exact Option.noConfusion ho
    | some o =>
      simp only [offsetsGo, List.zip_cons_cons]
      rw [List.chain'_cons']
      refine ⟨?_, ih (o :: seen)⟩
      intro pq hpq o' ho' hq
      cases rest with
      | nil => simp at hpq
      | cons b rest' =>
        cases b with
        | none =>
          simp only [offsetsGo, List.zip_cons_cons, List.head?_cons,
            Option.mem_def, Option.some.injEq] at hpq
          rw [← hpq] at hq
          exact Option.noConfusion hq
        | some ob =>
          simp only [offsetsGo, List.zip_cons_cons, List.head?_cons,
            Option.mem_def] at hpq
          obtain rfl := Option.some.inj hpq
          have hob : ob = o' := by simpa using hq
          have hoo : o = o' := by simpa using ho'
          refine ⟨seen.count o, rfl, ?_⟩
          have hobo : ob = o := hob.trans hoo.symm
          show some ((o :: seen).count ob) = some (seen.count o + 1)
          rw [hobo, List.count_cons_self]

/-- Strict increase of the synthetic timestamps: over a date-sorted run
of present ordinals in which no ordinal occurs more than 24 times
(counting the occurrences already consumed in `seen`),
`ordinal * 24 + offset` is strictly increasing. -/
theorem ts_chain (l : List Nat) (seen : List Nat)
    (hs : List.Chain' (fun a b => a ≤ b) l)
    (hcnt : ∀ x ∈ l, seen.count x + l.count x ≤ 24) :
    List.Chain' (fun a b => a < b)
      (List.zipWith (fun o k => o * 24 + k) l (offsetsGoNat seen l)) := by
  induction l generalizing seen with
  | nil => simp [offsetsGoNat]
  | cons o rest ih =>
    have hcnt' : ∀ x ∈ rest, (o :: seen).count x + rest.count x ≤ 24 := by
      intro x hx
      have hx' := hcnt x (List.mem_cons_of_mem _ hx)
      simp only [List.count_cons] at hx' ⊢
      omega
    cases rest with
    | nil => simp [offsetsGoNat]
    | cons o' rest' =>
      simp only [offsetsGoNat, List.zipWith_cons_cons]
      rw [List.chain'_cons]
      constructor
      · have hle : o ≤ o' := (List.chain'_cons.mp hs).1
        have hbound : seen.count o ≤ 23 := by
          have hco := hcnt o (List.mem_cons_self _ _)
          rw [List.count_cons_self] at hco
          omega
        rcases Nat.eq_or_lt_of_le hle with heq | hlt
        · subst heq
          rw [List.count_cons_self]
          omega
        · have hcc : (o :: seen).count o' ≥ 0 := Nat.zero_le _
          have : o * 24 + seen.count o < (o + 1) * 24 := by omega
          have h24 : (o + 1) * 24 ≤ o' * 24 := Nat.mul_le_mul_right _ hlt
          omega
      · have := ih (o :: seen) (List.chain'_cons.mp hs).2 hcnt'
        simpa [offsetsGoNat, List.zipWith_cons_cons] using this

theorem naLastLe_total (a b : Option Nat) : naLastLe a b ∨ naLastLe b a := by
  cases a <;> cases b
  · exact Or.inl True.intro
  · exact Or.inr True.intro
  · exact Or.inl True.intro
  · exact Nat.le_total _ _

theorem naLastLe_trans {a b c : Option Nat}
    (h1 : naLastLe a b) (h2 : naLastLe b c) : naLastLe a c := by
  cases a <;> cases b <;> cases c <;> simp_all [naLastLe]
  omega

instance : IsTotal (RawRow × Option Nat) (fun a b => naLastLe a.2 b.2) :=
  ⟨fun a b => naLastLe_total a.2 b.2⟩

instance : IsTrans (RawRow × Option Nat) (fun a b => naLastLe a.2 b.2) :=
  ⟨fun _ _ _ h h2 => naLastLe_trans h h2⟩

/-- A list of present optional values is the `some` image of a list of
values. -/
theorem exists_map_some {l : List (Option Nat)}
    (h : ∀ x ∈ l, x.isSome = true) : ∃ vals : List Nat, l = vals.map some := by
  induction l with
  | nil => exact ⟨[], rfl⟩
  | cons a t ih =>
    obtain ⟨vals, hv⟩ := ih (fun x hx => h x (List.mem_cons_of_mem _ hx))
    have ha := h a (List.mem_cons_self _ _)
    cases a with
    | none => simp at ha
    | some v => exact ⟨v :: vals, by rw [hv]; rfl⟩

theorem count_map_some (vals : List Nat) (x : Nat) :
    (vals.map some).count (some x) = vals.count x := by
  induction vals with
  | nil => rfl
  | cons v t ih => simp [List.count_cons, ih]

theorem offsetsGo_map_some (seen : List Nat) (vals : List Nat) :
    offsetsGo seen (vals.map some) = (offsetsGoNat seen vals).map some := by
  induction vals generalizing seen with
  | nil => rfl
  | cons v t ih => simp [offsetsGo, offsetsGoNat, ih]

theorem zipWith_tsOf_map_some (vals offs : List Nat) :
    List.zipWith tsOf (vals.map some) (offs.map some) =
      (List.zipWith (fun o k => o * 24 + k) vals offs).map some := by
  induction vals generalizing offs with
  | nil => rfl
  | cons v t ih =>
    cases offs with
    | nil => rfl
    | cons k ks => simp [tsOf, ih]

/-- The parsed ordinal of a row is present exactly when its date cell
is. -/
theorem parseDates_isSome {rows : List RawRow} {m : List (RawRow × Option Nat)}
    (h : parseDates rows = some m) :
    ∀ p ∈ m, p.2.isSome = p.1.konyvelesdatuma.isSome := by
  induction rows generalizing m with
  | nil =>
    obtain rfl := Option.some.inj h
    intro p hp
    simp at hp
  | cons r rest ih =>
    simp only [parseDates] at h
    split at h
    · next hd =>
      split at h
      · exact absurd h (by simp)
      · next tail hrec =>
        obtain rfl := Option.some.inj h
        intro p hp
        rcases List.mem_cons.mp hp with rfl | hm
        · simp [hd]
        · exact ih hrec p hm
    · next s hd =>
      split at h
      · exact absurd h (by simp)
      · next q hps =>
        split at h
        · exact absurd h (by simp)
        · next tail hrec =>
          obtain rfl := Option.some.inj h
          intro p hp
          rcases List.mem_cons.mp hp with rfl | hm
          · simp [hd]
          · exact ih hrec p hm

theorem processFrame_rows (l : List (RawRow × Option Nat)) :
    (processFrame l).rows = l.map (fun p => p.1) := rfl

theorem processFrame_ordinals (l : List (RawRow × Option Nat)) :
    (processFrame l).ordinals = l.map (fun p => p.2) := rfl

theorem processFrame_offs (l : List (RawRow × Option Nat)) :
    (processFrame l).offs = offsets (l.map (fun p => p.2)) := rfl

theorem processFrame_ts (l : List (RawRow × Option Nat)) :
    (processFrame l).ts =
      List.zipWith tsOf (l.map (fun p => p.2))
        (offsets (l.map (fun p => p.2))) := rfl

theorem processFrame_balances (l : List (RawRow × Option Nat)) :
    (processFrame l).balances = cumsumOpt (l.map (fun p => p.1.osszeg)) := rfl

theorem processFrame_descriptions (l : List (RawRow × Option Nat)) :
    (processFrame l).descriptions = l.map (fun p => descriptionOf p.1) := rfl

/-- Inversion of a successful load: the frame is the processed image of
a date-sorted (missing dates last) list of rows all of which escaped
the artifact filter, whose ordinals are present exactly where the date
cells are. -/
theorem loadRows_result_some {rows : List RawRow} {f : ProcFrame}
    (h : (loadRows rows).result = some f) :
    ∃ l, f = processFrame l
      ∧ List.Sorted (fun a b : RawRow × Option Nat => naLastLe a.2 b.2) l
      ∧ (∀ p ∈ l, p.1.tipus ≠ some EXCLUDED_TYPE)
      ∧ (∀ p ∈ l, (Prod.snd p).isSome = p.1.konyvelesdatuma.isSome) := by
  simp only [loadRows] at h
  split at h
  · split at h
    · simp at h
    · next withDates hp =>
      simp only at h
      obtain rfl : processFrame (sortByDate (withDates.filter
          (fun p => !(p.1.tipus == some EXCLUDED_TYPE)))) = f := by
        simpa using h
      refine ⟨_, rfl, ?_, ?_, ?_⟩
      · exact List.sorted_insertionSort _ _
      · intro p hp'
        have hmem : p ∈ withDates.filter
            (fun p => !(p.1.tipus == some EXCLUDED_TYPE)) := by
          exact (List.mem_insertionSort _).mp hp'
        have := List.of_mem_filter hmem
        simpa using this
      · intro p hp'
        have hmem : p ∈ withDates.filter
            (fun p => !(p.1.tipus == some EXCLUDED_TYPE)) := by
          exact (List.mem_insertionSort _).mp hp'
        exact parseDates_isSome hp p (List.mem_of_mem_filter hmem)
  · simp at h

/-- On any currency mismatch the load aborts with no data and reports
every offending row in order. -/
theorem loadRows_mismatch {rows : List RawRow} (hne : nonHufRows rows ≠ []) :
    loadRows rows =
      { result := none
        report := (nonHufRows rows).map
          (fun r => (r.konyvelesdatuma, r.osszeg, r.osszegdevizaneme)) } := by
  have hie : (nonHufRows rows).isEmpty = false := by
    cases hl : nonHufRows rows with
    | nil => exact absurd hl hne
    | cons a l => rfl
  simp [loadRows, hie]

/-- C7 counterexample: on an empty input file — a file that exists and
is readable — `fix_header_line` raises `IndexError` at `lines[0]` and
writes nothing (`none`: no output pair exists), so the sanitizer does
not produce the suffix-tagged output file the claim promises for every
input file. -/
theorem C7_counterexample :
    fixHeaderLineRun "transactions_export.csv" [] = none := rfl

/-- C7 (amended): for every input file with at least one line, the
header sanitizer removes from the first line exactly the characters
that are whitespace but not the tab separator, leaves every other line
unchanged, and writes the result to the input path tagged with the
`_fixed.csv` suffix. -/
theorem C7_header_sanitizer (path : String) (h : String) (t : List String) :
    fixHeaderLineRun path (h :: t) =
      some (fixedPath path,
        String.mk (h.data.filter (fun c => !(pyIsSpace c && !(c == '\t')))) :: t)
    ∧ fixedPath path = path ++ "_fixed.csv" := by
  refine ⟨?_, rfl⟩
  show some (fixedPath path, fixHeader h :: t) = _
  rw [fixHeader_filter_eq]

/-- C10 counterexample: on an empty (but perfectly readable) input
file, the effect trace of the whole load is empty — no sanitized
intermediate copy is ever written, because `lines[0]` raises before the
write — refuting the claim's promise of a write for every readable
input file. -/
theorem C10_counterexample :
    (readAndProcessCsv "transactions_export.csv" [] []).events = []
    ∧ (readAndProcessCsv "transactions_export.csv" [] []).result = none :=
  ⟨rfl, rfl⟩

/-- C10 (amended): for every input file with at least one line, the
sanitized copy is written as the very first effect — before any
validation output — it is written no matter whether the load
subsequently succeeds or fails, and no event of the run ever deletes a
file. -/
theorem C10_fixed_copy_persists (path : String) (h : String) (t : List String)
    (rows : List RawRow) :
    (readAndProcessCsv path (h :: t) rows).events.head? =
        some (FsEvent.write (fixedPath path) (fixHeader h :: t))
    ∧ (readAndProcessCsv path (h :: t) rows).events.all (fun e => !e.isDelete) = true
    ∧ (readAndProcessCsv path (h :: t) rows).result = (loadRows rows).result := by
  refine ⟨rfl, ?_, rfl⟩
  rw [List.all_eq_true]
  intro e he
  have he' : e = FsEvent.write (fixedPath path) (fixHeader h :: t) ∨
      e ∈ (loadRows rows).report.map
        (fun x => FsEvent.reportMismatch x.1 x.2.1 x.2.2) := List.mem_cons.mp he
  rcases he' with rfl | hm
  · rfl
  · obtain ⟨x, _, rfl⟩ := List.mem_map.mp hm
    rfl

/-- C8 counterexample: a header-only export parses to zero data rows,
the load succeeds with an empty frame, and `main` then crashes uncaught
at line 253 (`NaT.strftime`) — the program exits with code 1 and no
chart although the load was a success, refuting the claim's
`on success the exit code is 0`. -/
theorem C8_counterexample :
    (readAndProcessCsv "export.csv" ["header\n"] []).result =
        some (processFrame [])
    ∧ (runMain 2 "export.csv" ["header\n"] [] true).exitCode = 1
    ∧ (runMain 2 "export.csv" ["header\n"] [] true).chartWritten = false := by
  refine ⟨rfl, ?_, ?_⟩ <;> decide

/-- C8 (amended): the program exits with code 1 when `len(sys.argv)` is
anything but 2 (one positional argument), without invoking the loader;
it exits with code 1 whenever the load returns no data (currency
mismatch, parse error, or unreadable input); after a successful load it
writes the chart and exits 0 exactly when the frame is renderable (at
least one record, no missing posting date, at least one present
balance) — otherwise the unhandled summary/chart-stage exception makes
it exit 1 with no chart.  A browser-launch failure never changes the
exit code. -/
theorem C8_exit_codes (argvLen : Nat) (path : String) (lines : List String)
    (rows : List RawRow) (browserOk : Bool) :
    (runMain argvLen path lines rows browserOk).exitCode =
        (if (decide (argvLen = 2) &&
            ((readAndProcessCsv path lines rows).result.any
              (fun f => !mainCrashes f))) = true
         then 0 else 1)
    ∧ (runMain argvLen path lines rows browserOk).loaderInvoked = decide (argvLen = 2)
    ∧ (runMain argvLen path lines rows browserOk).chartWritten =
        (decide (argvLen = 2) &&
          ((readAndProcessCsv path lines rows).result.any
            (fun f => !mainCrashes f))) := by
  by_cases h2 : argvLen = 2
  · subst h2
    cases hres : (readAndProcessCsv path lines rows).result with
    | none => simp [runMain, hres]
    | some f =>
      cases hc : mainCrashes f <;> simp [runMain, hres, hc]
  · simp [runMain, h2]

/-- C2: whenever some kept record's currency differs from `'HUF'`, the
loader returns no data at all, its report lists the date, amount and
currency of every offending row, no chart is ever produced, and the
program run exits with code 1 — a global failure, never a partial
per-row filtering. -/
theorem C2_currency_mismatch_aborts (rows : List RawRow)
    (hne : nonHufRows rows ≠ []) :
    (loadRows rows).result = none
    ∧ (loadRows rows).report =
        (nonHufRows rows).map
          (fun r => (r.konyvelesdatuma, r.osszeg, r.osszegdevizaneme))
    ∧ (∀ argvLen path lines browserOk,
        (runMain argvLen path lines rows browserOk).chartWritten = false)
    ∧ (∀ path lines browserOk,
        (runMain 2 path lines rows browserOk).exitCode = 1) := by
  have hres := loadRows_mismatch hne
  have hnone : (loadRows rows).result = none := by rw [hres]
  refine ⟨hnone, by rw [hres], ?_, ?_⟩
  · intro argvLen path lines browserOk
    by_cases h2 : argvLen = 2
    · subst h2
      cases lines with
      | nil => simp [runMain, readAndProcessCsv, fixHeaderLineRun]
      | cons hd tl =>
        simp [runMain, readAndProcessCsv, fixHeaderLineRun, hnone]
    · simp [runMain, h2]
  · intro path lines browserOk
    cases lines with
    | nil => simp [runMain, readAndProcessCsv, fixHeaderLineRun]
    | cons hd tl =>
      simp [runMain, readAndProcessCsv, fixHeaderLineRun, hnone]

/-- C9: the currency gate runs before date parsing and before the
artifact-type exclusion — a kept row with a non-HUF currency aborts the
whole load and is reported even when its transaction type is the
excluded artifact value (and even when its date would not parse). -/
theorem C9_currency_check_first (rows : List RawRow) (r : RawRow)
    (hmem : r ∈ rows)
    (hcur : r.osszegdevizaneme ≠ some "HUF")
    (htip : r.tipus = some EXCLUDED_TYPE) :
    (loadRows rows).result = none
    ∧ (r.konyvelesdatuma, r.osszeg, r.osszegdevizaneme) ∈ (loadRows rows).report := by
  have hkept : r ∈ keptRows rows := by
    refine List.mem_filter.mpr ⟨hmem, ?_⟩
    simp [RawRow.allNa, htip]
  have hnh : r ∈ nonHufRows rows := by
    refine List.mem_filter.mpr ⟨hkept, ?_⟩
    simp [hcur]
  have hne : nonHufRows rows ≠ [] := List.ne_nil_of_mem hnh
  have hres := loadRows_mismatch hne
  constructor
  · rw [hres]
  · rw [hres]
    exact List.mem_map.mpr ⟨r, hnh, rfl⟩

/-- Mixed-currency input: one HUF row and one EUR row. -/
def c2rows : List RawRow :=
  [{ konyvelesdatuma := some "2014.08.01", osszeg := some 10,
     osszegdevizaneme := some "HUF", tipus := some "t",
     partnerelnevezese := none, kozlemeny := none },
   { konyvelesdatuma := some "2014.08.02", osszeg := some 5,
     osszegdevizaneme := some "EUR", tipus := some "t",
     partnerelnevezese := none, kozlemeny := none }]

theorem C2_currency_mismatch_aborts_witness :
    (loadRows c2rows).result = none
    ∧ (loadRows c2rows).report =
        (nonHufRows c2rows).map
          (fun r => (r.konyvelesdatuma, r.osszeg, r.osszegdevizaneme))
    ∧ (loadRows c2rows).report = [(some "2014.08.02", some 5, some "EUR")]
    ∧ (runMain 2 "export.csv" ["header\n", "row\n"] c2rows true).chartWritten = false
    ∧ (runMain 2 "export.csv" ["header\n", "row\n"] c2rows true).exitCode = 1 := by
  have hc := C2_currency_mismatch_aborts c2rows (by decide)
  exact ⟨hc.1, hc.2.1, by decide,
    hc.2.2.1 2 "export.csv" ["header\n", "row\n"] true,
    hc.2.2.2 "export.csv" ["header\n", "row\n"] true⟩

/-- Input whose offending row has an unparseable date and the excluded
artifact transaction type, on top of a non-HUF currency. -/
def c9rows : List RawRow :=
  [{ konyvelesdatuma := some "2014.08.01", osszeg := some 10,
     osszegdevizaneme := some "HUF", tipus := some "t",
     partnerelnevezese := none, kozlemeny := none },
   { konyvelesdatuma := some "not-a-date", osszeg := some 5,
     osszegdevizaneme := some "EUR",
     tipus := some "Számlamegszüntetés átvezetéssel",
     partnerelnevezese := none, kozlemeny := none }]

theorem C9_currency_check_first_witness :
    (loadRows c9rows).result = none
    ∧ ((c9rows.getD 1 default).konyvelesdatuma, (c9rows.getD 1 default).osszeg,
        (c9rows.getD 1 default).osszegdevizaneme) ∈ (loadRows c9rows).report :=
  C9_currency_check_first c9rows (c9rows.getD 1 default)
    (by decide) (by decide) (by decide)

theorem cumsumInt_length (l : List Int) : (cumsumInt l).length = l.length :=
  cumsumIntGo_length 0 l

theorem cumsumInt_getD (l : List Int) (i : Nat) (h : i < l.length) :
    (cumsumInt l).getD i 0 = (l.take (i + 1)).sum := by
  have := cumsumIntGo_getD 0 l i h
  simpa using this

theorem take_one_sum (xs : List Int) (h : 0 < xs.length) :
    (xs.take 1).sum = xs.getD 0 0 := by
  cases xs with
  | nil => simp at h
  | cons a t => simp

theorem getD_map_some (xs : List Int) (i : Nat) (h : i < xs.length) :
    (xs.map some).getD i none = some (xs.getD i 0) := by
  induction xs generalizing i with
  | nil => simp at h
  | cons a t ih =>
    cases i with
    | zero => rfl
    | succ j =>
      simp only [List.map_cons, List.getD_cons_succ]
      exact ih j (by simpa using h)

theorem take_succ_sum (xs : List Int) (n : Nat) (h : n < xs.length) :
    (xs.take (n + 1)).sum = (xs.take n).sum + xs.getD n 0 := by
  induction xs generalizing n with
  | nil => simp at h
  | cons a t ih =>
    cases n with
    | zero => simp
    | succ m =>
      simp only [List.take_succ_cons, List.sum_cons, List.getD_cons_succ]
      rw [ih m (by simpa using h)]
      ring

/-- C1: for every successfully loaded input all of whose records carry
an amount, the running balance is the integer prefix sum of the
included amounts in sorted order: the balance column is the prefix-sum
image of the amount column, the first balance equals the first amount,
each later balance is the previous balance plus the current amount, and
the balance at the last record is the sum of all included amounts. -/
theorem C1_running_balance (rows : List RawRow) (f : ProcFrame)
    (h : (loadRows rows).result = some f)
    (hamt : ∀ r ∈ f.rows, (RawRow.osszeg r).isSome) :
    f.balances = (cumsumInt (f.rows.map (fun r => r.osszeg.getD 0))).map some
    ∧ (0 < f.rows.length →
        f.balances.getD 0 none =
          some ((f.rows.map (fun r => r.osszeg.getD 0)).getD 0 0))
    ∧ (∀ i, i + 1 < f.rows.length →
        ∃ prev, f.balances.getD i none = some prev ∧
          f.balances.getD (i + 1) none =
            some (prev + (f.rows.map (fun r => r.osszeg.getD 0)).getD (i + 1) 0))
    ∧ (0 < f.rows.length →
        f.balances.getD (f.rows.length - 1) none =
          some ((f.rows.map (fun r => r.osszeg.getD 0)).sum)) := by
  obtain ⟨l, rfl, -, -, -⟩ := loadRows_result_some h
  have hrowsmap : (processFrame l).rows.map (fun r => r.osszeg.getD 0) =
      l.map (fun p => p.1.osszeg.getD 0) := by
    rw [processFrame_rows, List.map_map]
    rfl
  have hA : l.map (fun p => p.1.osszeg) =
      (l.map (fun p => p.1.osszeg.getD 0)).map some := by
    rw [List.map_map]
    apply List.map_congr_left
    intro p hp
    have hs := hamt p.1 (by
      rw [processFrame_rows]
      exact List.mem_map_of_mem _ hp)
    cases ho : p.1.osszeg with
    | none => rw [ho] at hs; simp at hs
    | some a => simp [ho]
  have hbal : (processFrame l).balances =
      (cumsumInt (l.map (fun p => p.1.osszeg.getD 0))).map some := by
    rw [processFrame_balances, hA]
    exact cumsumOptGo_map_some 0 _
  have hlenr : (processFrame l).rows.length = l.length := by
    rw [processFrame_rows, List.length_map]
  have hlenA : (l.map (fun p => p.1.osszeg.getD 0)).length = l.length :=
    List.length_map _ _
  set A : List Int := l.map (fun p => p.1.osszeg.getD 0) with hAdef
  have hlenc : (cumsumInt A).length = l.length := by
    rw [cumsumInt_length, hlenA]
  refine ⟨by rw [hbal, hrowsmap], ?_, ?_, ?_⟩
  · intro hpos
    rw [hlenr] at hpos
    rw [hbal, hrowsmap, getD_map_some (cumsumInt A) 0 (by omega),
      cumsumInt_getD A 0 (by omega), take_one_sum A (by omega)]
  · intro i hi
    rw [hlenr] at hi
    refine ⟨(A.take (i + 1)).sum, ?_, ?_⟩
    · rw [hbal, getD_map_some (cumsumInt A) i (by omega),
        cumsumInt_getD A i (by omega)]
    · rw [hbal, hrowsmap, getD_map_some (cumsumInt A) (i + 1) (by omega),
        cumsumInt_getD A (i + 1) (by omega),
        take_succ_sum A (i + 1) (by omega)]
  · intro hpos
    rw [hlenr] at hpos
    rw [hbal, hrowsmap, hlenr,
      getD_map_some (cumsumInt A) (l.length - 1) (by omega),
      cumsumInt_getD A (l.length - 1) (by omega)]
    have hn : l.length - 1 + 1 = l.length := by omega
    rw [hn, ← hlenA, List.take_length]

/-- Spec scenario input: `+1000` and `-300` on 2014-08-01, `+50` on
2014-08-02, all HUF. -/
def c1rows : List RawRow :=
  [{ konyvelesdatuma := some "2014.08.01", osszeg := some 1000,
     osszegdevizaneme := some "HUF", tipus := some "t",
     partnerelnevezese := none, kozlemeny := some "memo" },
   { konyvelesdatuma := some "2014.08.01", osszeg := some (-300),
     osszegdevizaneme := some "HUF", tipus := some "t",
     partnerelnevezese := none, kozlemeny := some "memo" },
   { konyvelesdatuma := some "2014.08.02", osszeg := some 50,
     osszegdevizaneme := some "HUF", tipus := some "t",
     partnerelnevezese := none, kozlemeny := some "memo" }]

theorem C1_running_balance_witness :
    (loadRows c1rows).result = some ((loadRows c1rows).result.getD default)
    ∧ ((loadRows c1rows).result.getD default).balances =
        (cumsumInt (((loadRows c1rows).result.getD default).rows.map
          (fun r => r.osszeg.getD 0))).map some
    ∧ ((loadRows c1rows).result.getD default).balances =
        [some 1000, some 700, some 750] :=
  ⟨by decide,
   (C1_running_balance c1rows ((loadRows c1rows).result.getD default)
      (by decide) (by decide)).1,
   by decide⟩

/-- Input with 25 transactions on 2014-08-01 followed by one on
2014-08-02: the hour offsets of the first day reach 24 hours, so the
last timestamp of 2014-08-01 coincides with the first timestamp of
2014-08-02. -/
def c3rows : List RawRow :=
  List.replicate 25
    { konyvelesdatuma := some "2014.08.01", osszeg := some 1,
      osszegdevizaneme := some "HUF", tipus := some "t",
      partnerelnevezese := none, kozlemeny := none } ++
  [{ konyvelesdatuma := some "2014.08.02", osszeg := some 1,
     osszegdevizaneme := some "HUF", tipus := some "t",
     partnerelnevezese := none, kozlemeny := none }]

/-- C3 counterexample: a successfully processed sequence whose
synthetic timestamps are not strictly increasing — with 25 records on
one calendar day the offsets spill past 24 hours and collide with the
next day's first timestamp, so the claimed unconditional strict
monotonicity fails. -/
theorem C3_counterexample :
    (loadRows c3rows).result = some ((loadRows c3rows).result.getD default)
    ∧ ¬ List.Chain' (fun a b : Option Nat =>
        ∃ x y, a = some x ∧ b = some y ∧ x < y)
        ((loadRows c3rows).result.getD default).ts := by
  constructor
  · decide
  · rw [chain'_iff_strictChainOptB]
    decide

/-- C3 (amended): for every successfully loaded input whose records all
carry a posting date and in which no calendar date carries more than 24
records, the synthetic timestamps are strictly increasing across the
full sorted sequence; and unconditionally — whatever the group sizes
and whether or not other dates are missing — consecutive records of
the same calendar date receive consecutive ascending hour offsets,
preserving their relative sort order. -/
theorem C3_timestamps (rows : List RawRow) (f : ProcFrame)
    (h : (loadRows rows).result = some f) :
    ((∀ r ∈ f.rows, r.konyvelesdatuma.isSome = true) →
     (∀ o ∈ f.ordinals, f.ordinals.count o ≤ 24) →
     List.Chain' (fun a b : Option Nat =>
       ∃ x y, a = some x ∧ b = some y ∧ x < y) f.ts)
    ∧ List.Chain' (fun p q : Option Nat × Option Nat =>
        ∀ o, p.1 = some o → q.1 = some o →
          ∃ i, p.2 = some i ∧ q.2 = some (i + 1))
        (f.ordinals.zip f.offs) := by
  obtain ⟨l, rfl, hsort, -, hdinv⟩ := loadRows_result_some h
  constructor
  · intro hdates hday
    rw [processFrame_rows] at hdates
    rw [processFrame_ordinals] at hday
    rw [processFrame_ts]
    have hall : ∀ x ∈ l.map (fun p => p.2), x.isSome = true := by
      intro x hx
      obtain ⟨p, hp, rfl⟩ := List.mem_map.mp hx
      rw [hdinv p hp]
      exact hdates p.1 (List.mem_map_of_mem _ hp)
    obtain ⟨vals, hvals⟩ := exists_map_some hall
    rw [hvals]
    have hoffs : offsets (vals.map some) = (offsetsGoNat [] vals).map some :=
      offsetsGo_map_some [] vals
    rw [hoffs, zipWith_tsOf_map_some, List.chain'_map]
    refine List.Chain'.imp ?_ (ts_chain vals [] ?_ ?_)
    · intro a b hab
      exact ⟨a, b, rfl, rfl, hab⟩
    · have hp1 : List.Pairwise naLastLe (l.map fun p => p.2) :=
        List.pairwise_map.mpr hsort
      rw [hvals] at hp1
      have hp2 : List.Pairwise (fun x y : Nat => x ≤ y) vals :=
        (List.pairwise_map.mp hp1).imp (fun h => h)
      exact hp2.chain'
    · intro x hx
      have hmem : some x ∈ l.map (fun p => p.2) := by
        rw [hvals]
        exact List.mem_map_of_mem _ hx
      have hc := hday (some x) hmem
      rw [hvals, count_map_some] at hc
      simpa using hc
  · rw [processFrame_ordinals, processFrame_offs]
    exact offsetsGo_zip_chain [] _

/-- Spec scenario input for the timestamp property: two same-day rows
followed by a next-day row. -/
def c3okRows : List RawRow :=
  [{ konyvelesdatuma := some "2014.08.01", osszeg := some 1000,
     osszegdevizaneme := some "HUF", tipus := some "t",
     partnerelnevezese := none, kozlemeny := none },
   { konyvelesdatuma := some "2014.08.01", osszeg := some (-300),
     osszegdevizaneme := some "HUF", tipus := some "t",
     partnerelnevezese := none, kozlemeny := none },
   { konyvelesdatuma := some "2014.08.02", osszeg := some 50,
     osszegdevizaneme := some "HUF", tipus := some "t",
     partnerelnevezese := none, kozlemeny := none }]

theorem C3_timestamps_witness :
    (loadRows c3okRows).result = some ((loadRows c3okRows).result.getD default)
    ∧ List.Chain' (fun a b : Option Nat =>
        ∃ x y, a = some x ∧ b = some y ∧ x < y)
        ((loadRows c3okRows).result.getD default).ts
    ∧ ((loadRows c3okRows).result.getD default).offs =
        [some 0, some 1, some 0] :=
  ⟨by decide,
   (C3_timestamps c3okRows ((loadRows c3okRows).result.getD default)
      (by decide)).1 (by decide) (by decide),
   by decide⟩

/-- Two rows agree in every field except possibly in the amount of a
row whose transaction type is the excluded artifact value. -/
def AgreeExceptArtifactAmount (r s : RawRow) : Prop :=
  r.konyvelesdatuma = s.konyvelesdatuma
  ∧ r.osszegdevizaneme = s.osszegdevizaneme
  ∧ r.tipus = s.tipus
  ∧ r.partnerelnevezese = s.partnerelnevezese
  ∧ r.kozlemeny = s.kozlemeny
  ∧ (r.tipus ≠ some EXCLUDED_TYPE → r.osszeg = s.osszeg)

theorem agree_refl (r : RawRow) : AgreeExceptArtifactAmount r r :=
  ⟨rfl, rfl, rfl, rfl, rfl, fun _ => rfl⟩

theorem forall₂_agree_refl (l : List RawRow) :
    List.Forall₂ AgreeExceptArtifactAmount l l := by
  induction l with
  | nil => exact .nil
  | cons r t ih => exact .cons (agree_refl r) ih

theorem rawRow_eq_of_fields {r s : RawRow}
    (h1 : r.konyvelesdatuma = s.konyvelesdatuma) (h2 : r.osszeg = s.osszeg)
    (h3 : r.osszegdevizaneme = s.osszegdevizaneme) (h4 : r.tipus = s.tipus)
    (h5 : r.partnerelnevezese = s.partnerelnevezese)
    (h6 : r.kozlemeny = s.kozlemeny) : r = s := by
  cases r; cases s
  simp_all

theorem agree_allNa {r s : RawRow} (h : AgreeExceptArtifactAmount r s) :
    r.allNa = s.allNa := by
  obtain ⟨h1, h2, h3, h4, h5, h6⟩ := h
  by_cases ht : r.tipus = some EXCLUDED_TYPE
  · have hs : s.tipus = some EXCLUDED_TYPE := by rw [← h3]; exact ht
    simp [RawRow.allNa, ht, hs]
  · rw [rawRow_eq_of_fields h1 (h6 ht) h2 h3 h4 h5]

theorem forall₂_filter_congr {α β : Type} {R : α → β → Prop}
    {p : α → Bool} {q : β → Bool} {l₁ : List α} {l₂ : List β}
    (h : List.Forall₂ R l₁ l₂) (hpq : ∀ a b, R a b → p a = q b) :
    List.Forall₂ R (l₁.filter p) (l₂.filter q) := by
  induction h with
  | nil => exact .nil
  | cons hab hrest ih =>
    rename_i a b l₁' l₂'
    rw [List.filter_cons, List.filter_cons, hpq _ _ hab]
    by_cases hb : q b = true
    · rw [if_pos hb, if_pos hb]
      exact List.Forall₂.cons hab ih
    · rw [if_neg hb, if_neg hb]
      exact ih

theorem forall₂_isEmpty_eq {α β : Type} {R : α → β → Prop}
    {l₁ : List α} {l₂ : List β} (h : List.Forall₂ R l₁ l₂) :
    l₁.isEmpty = l₂.isEmpty := by
  cases h <;> rfl

theorem keptRows_agree {rows₁ rows₂ : List RawRow}
    (h : List.Forall₂ AgreeExceptArtifactAmount rows₁ rows₂) :
    List.Forall₂ AgreeExceptArtifactAmount (keptRows rows₁) (keptRows rows₂) :=
  forall₂_filter_congr h (fun _ _ hab => by rw [agree_allNa hab])

theorem nonHuf_agree {rows₁ rows₂ : List RawRow}
    (h : List.Forall₂ AgreeExceptArtifactAmount rows₁ rows₂) :
    List.Forall₂ AgreeExceptArtifactAmount (nonHufRows rows₁) (nonHufRows rows₂) :=
  forall₂_filter_congr (keptRows_agree h) (fun _ _ hab => by rw [hab.2.1])

theorem parseDates_agree {l₁ l₂ : List RawRow}
    (h : List.Forall₂ AgreeExceptArtifactAmount l₁ l₂) :
    (parseDates l₁ = none ∧ parseDates l₂ = none) ∨
    ∃ m₁ m₂, parseDates l₁ = some m₁ ∧ parseDates l₂ = some m₂ ∧
      List.Forall₂
        (fun p q => AgreeExceptArtifactAmount p.1 q.1 ∧ p.2 = q.2) m₁ m₂ := by
  induction h with
  | nil => exact Or.inr ⟨[], [], rfl, rfl, .nil⟩
  | cons hab hrest ih =>
    rename_i a b l₁' l₂'
    have hdate : a.konyvelesdatuma = b.konyvelesdatuma := hab.1
    cases hd : a.konyvelesdatuma with
    | none =>
      have hd2 : b.konyvelesdatuma = none := by rw [← hdate]; exact hd
      rcases ih with ⟨hn₁, hn₂⟩ | ⟨m₁, m₂, hm₁, hm₂, hrel⟩
      · left
        constructor
        · simp [parseDates, hd, hn₁]
        · simp [parseDates, hd2, hn₂]
      · right
        refine ⟨(a, none) :: m₁, (b, none) :: m₂, ?_, ?_,
          .cons ⟨hab, rfl⟩ hrel⟩
        · simp [parseDates, hd, hm₁]
        · simp [parseDates, hd2, hm₂]
    | some s =>
      have hd2 : b.konyvelesdatuma = some s := by rw [← hdate]; exact hd
      cases hps : parseDate s with
      | none =>
        left
        constructor
        · simp [parseDates, hd, hps]
        · simp [parseDates, hd2, hps]
      | some q =>
        rcases ih with ⟨hn₁, hn₂⟩ | ⟨m₁, m₂, hm₁, hm₂, hrel⟩
        · left
          constructor
          · simp [parseDates, hd, hps, hn₁]
          · simp [parseDates, hd2, hps, hn₂]
        · right
          refine ⟨(a, some (dateOrdinal q)) :: m₁,
            (b, some (dateOrdinal q)) :: m₂, ?_, ?_,
            .cons ⟨hab, rfl⟩ hrel⟩
          · simp [parseDates, hd, hps, hm₁]
          · simp [parseDates, hd2, hps, hm₂]

theorem artifact_filter_eq {m₁ m₂ : List (RawRow × Option Nat)}
    (h : List.Forall₂
      (fun p q => AgreeExceptArtifactAmount p.1 q.1 ∧ p.2 = q.2) m₁ m₂) :
    m₁.filter (fun p => !(p.1.tipus == some EXCLUDED_TYPE)) =
      m₂.filter (fun p => !(p.1.tipus == some EXCLUDED_TYPE)) := by
  induction h with
  | nil => rfl
  | cons hab hrest ih =>
    rename_i p q m₁' m₂'
    obtain ⟨⟨h1, h2, h3, h4, h5, h6⟩, hord⟩ := hab
    have hc : (!(p.1.tipus == some EXCLUDED_TYPE)) =
        (!(q.1.tipus == some EXCLUDED_TYPE)) := by rw [h3]
    rw [List.filter_cons, List.filter_cons, hc]
    by_cases hq : (!(q.1.tipus == some EXCLUDED_TYPE)) = true
    · rw [if_pos hq, if_pos hq, ih]
      have hne : p.1.tipus ≠ some EXCLUDED_TYPE := by
        rw [h3]
        simpa using hq
      have hpq : p = q := Prod.ext
        (rawRow_eq_of_fields h1 (h6 hne) h2 h3 h4 h5) hord
      rw [hpq]
    · rw [if_neg hq, if_neg hq]
      exact ih

/-- Changing nothing but the amounts of artifact-type rows never
changes the loader's result. -/
theorem loadRows_result_agree {rows₁ rows₂ : List RawRow}
    (h : List.Forall₂ AgreeExceptArtifactAmount rows₁ rows₂) :
    (loadRows rows₁).result = (loadRows rows₂).result := by
  have hkept := keptRows_agree h
  have hnh : (nonHufRows rows₁).isEmpty = (nonHufRows rows₂).isEmpty :=
    forall₂_isEmpty_eq (nonHuf_agree h)
  simp only [loadRows]
  by_cases hemp : (nonHufRows rows₂).isEmpty = true
  · rw [hnh, hemp]
    simp only [if_true]
    rcases parseDates_agree hkept with ⟨hp1, hp2⟩ | ⟨m₁, m₂, hp1, hp2, hrel⟩
    · simp [hp1, hp2]
    · simp only [hp1, hp2]
      rw [artifact_filter_eq hrel]
  · have hemp' : (nonHufRows rows₁).isEmpty = false := by
      rw [hnh]
      exact Bool.not_eq_true _ ▸ hemp
    rw [hemp']
    have hemp'' : (nonHufRows rows₂).isEmpty = false :=
      Bool.not_eq_true _ ▸ hemp
    rw [hemp'']
    simp

/-- The row at position `i` with its amount replaced. -/
def withAmount (r : RawRow) (a : Option Int) : RawRow := { r with osszeg := a }

theorem forall₂_agree_set (rows : List RawRow) (i : Nat) (a' : Option Int)
    (htip : (rows.getD i default).tipus = some EXCLUDED_TYPE) :
    List.Forall₂ AgreeExceptArtifactAmount
      (rows.set i (withAmount (rows.getD i default) a')) rows := by
  induction rows generalizing i with
  | nil => exact .nil
  | cons r t ih =>
    cases i with
    | zero =>
      rw [List.getD_cons_zero] at htip
      refine List.Forall₂.cons ?_ (forall₂_agree_refl t)
      exact ⟨rfl, rfl, rfl, rfl, rfl, fun hne => absurd htip hne⟩
    | succ j =>
      rw [List.getD_cons_succ] at htip
      exact List.Forall₂.cons (agree_refl r) (ih j htip)

/-- C5: records carrying the excluded artifact transaction type never
appear in the processed sequence, and their amounts never influence the
loader's result — replacing the amount of an artifact-type row yields
exactly the same result, so no running-balance value depends on it. -/
theorem C5_artifact_excluded (rows : List RawRow) :
    (∀ f, (loadRows rows).result = some f →
        ∀ r ∈ f.rows, r.tipus ≠ some EXCLUDED_TYPE)
    ∧ (∀ i a', (rows.getD i default).tipus = some EXCLUDED_TYPE →
        (loadRows (rows.set i (withAmount (rows.getD i default) a'))).result =
          (loadRows rows).result) := by
  constructor
  · intro f h r hr
    obtain ⟨l, rfl, -, hexc, -⟩ := loadRows_result_some h
    rw [processFrame_rows] at hr
    obtain ⟨p, hp, rfl⟩ := List.mem_map.mp hr
    exact hexc p hp
  · intro i a' htip
    exact loadRows_result_agree (forall₂_agree_set rows i a' htip)

/-- Base input for the artifact-exclusion witness: one ordinary HUF row
and one artifact-type row. -/
def c5rows : List RawRow :=
  [{ konyvelesdatuma := some "2014.08.01", osszeg := some 100,
     osszegdevizaneme := some "HUF", tipus := some "t",
     partnerelnevezese := none, kozlemeny := none },
   { konyvelesdatuma := some "2014.08.02", osszeg := some 777,
     osszegdevizaneme := some "HUF", tipus := some "Számlamegszüntetés átvezetéssel",
     partnerelnevezese := none, kozlemeny := none }]

theorem C5_artifact_excluded_witness :
    (((loadRows c5rows).result.getD default).rows.getD 0 default).tipus ≠
        some EXCLUDED_TYPE
    ∧ (loadRows (c5rows.set 1 (withAmount (c5rows.getD 1 default)
        (some (-5))))).result = (loadRows c5rows).result :=
  ⟨(C5_artifact_excluded c5rows).1 ((loadRows c5rows).result.getD default)
      (by decide) (((loadRows c5rows).result.getD default).rows.getD 0 default)
      (by decide),
   (C5_artifact_excluded c5rows).2 1 (some (-5)) (by decide)⟩

theorem forall₂_map_pair {α β γ : Type} {R : β → γ → Prop} (f : α → β)
    (g : α → γ) (l : List α) (h : ∀ a ∈ l, R (f a) (g a)) :
    List.Forall₂ R (l.map f) (l.map g) := by
  induction l with
  | nil => exact .nil
  | cons a t ih =>
    exact .cons (h a (List.mem_cons_self _ _))
      (ih (fun x hx => h x (List.mem_cons_of_mem _ hx)))

/-- C6: on every processed record whose optional text cells respect the
CSV reading convention (an empty field is a missing cell, so a present
cell is never the empty string), the display description equals the
counterparty name when present, else the memo text when present, else
the fixed placeholder — and it is never empty. -/
theorem C6_description_fallback (rows : List RawRow) (f : ProcFrame)
    (h : (loadRows rows).result = some f)
    (hcsv : ∀ r ∈ f.rows, r.partnerelnevezese ≠ some "" ∧ r.kozlemeny ≠ some "") :
    List.Forall₂ (fun r d =>
      (∀ s, r.partnerelnevezese = some s → d = s)
      ∧ (r.partnerelnevezese = none → ∀ s, r.kozlemeny = some s → d = s)
      ∧ (r.partnerelnevezese = none → r.kozlemeny = none → d = "No Description")
      ∧ d ≠ "") f.rows f.descriptions := by
  obtain ⟨l, rfl, -, -, -⟩ := loadRows_result_some h
  rw [processFrame_rows] at hcsv ⊢
  rw [processFrame_descriptions]
  apply forall₂_map_pair
  intro p hp
  obtain ⟨hpart, hmemo⟩ := hcsv p.1 (List.mem_map_of_mem _ hp)
  unfold descriptionOf
  cases hpa : p.1.partnerelnevezese with
  | some s =>
    rw [hpa] at hpart
    refine ⟨?_, ?_, ?_, ?_⟩
    · intro s' hs'
      cases hs'
      rfl
    · intro hn
      exact Option.noConfusion hn
    · intro hn
      exact Option.noConfusion hn
    · simp only [Option.getD_some]
      intro hempty
      exact hpart (by rw [hempty])
  | none =>
    simp only [Option.getD_none]
    cases hko : p.1.kozlemeny with
    | some m =>
      rw [hko] at hmemo
      refine ⟨?_, ?_, ?_, ?_⟩
      · intro s' hs'
        exact Option.noConfusion hs'
      · intro _ s' hs'
        cases hs'
        rfl
      · intro _ hn
        exact Option.noConfusion hn
      · simp only [Option.getD_some]
        intro hempty
        exact hmemo (by rw [hempty])
    | none =>
      refine ⟨?_, ?_, ?_, ?_⟩
      · intro s' hs'
        exact Option.noConfusion hs'
      · intro _ s' hs'
        exact Option.noConfusion hs'
      · intro _ _
        rfl
      · simp

/-- Input exercising all three description tiers: a counterparty name,
a memo-only row, and a row with neither. -/
def c6rows : List RawRow :=
  [{ konyvelesdatuma := some "2014.08.01", osszeg := some 10,
     osszegdevizaneme := some "HUF", tipus := some "t",
     partnerelnevezese := some "Alice", kozlemeny := some "m1" },
   { konyvelesdatuma := some "2014.08.02", osszeg := some 20,
     osszegdevizaneme := some "HUF", tipus := some "t",
     partnerelnevezese := none, kozlemeny := some "m2" },
   { konyvelesdatuma := some "2014.08.03", osszeg := some 30,
     osszegdevizaneme := some "HUF", tipus := some "t",
     partnerelnevezese := none, kozlemeny := none }]

theorem C6_description_fallback_witness :
    ((loadRows c6rows).result.getD default).descriptions =
        ["Alice", "m2", "No Description"]
    ∧ List.Forall₂ (fun (r : RawRow) (d : String) =>
        (∀ s, r.partnerelnevezese = some s → d = s)
        ∧ (r.partnerelnevezese = none → ∀ s, r.kozlemeny = some s → d = s)
        ∧ (r.partnerelnevezese = none → r.kozlemeny = none → d = "No Description")
        ∧ d ≠ "")
      ((loadRows c6rows).result.getD default).rows
      ((loadRows c6rows).result.getD default).descriptions :=
  ⟨by decide,
   C6_description_fallback c6rows ((loadRows c6rows).result.getD default)
      (by decide) (by decide)⟩

end KhSummary
